import Mathlib

/-!
Verification development for the alembic-rs archive storage engine.

The repository's core (the Rust crate behind the `alembic_rs` Python
module) is not present under `src/`; only its Python tests, examples and
build tooling are.  Every definition below is therefore a shallow
embedding modelled from the specification (`spec.md`), with behaviour
that the spec leaves open pinned by the repository's own Python tests.
Times are modelled as exact rationals (ℚ); encoded sample payloads are
modelled as opaque typed values, legitimate because the spec lets an
implementer "choose any container encoding that satisfies the
contracts".
-/

namespace AlembicRS

/-- Modelled from the spec: the distinguishable error kinds of §7
(I/O, format, naming-conflict, type-mismatch, range). -/
inductive AbcError where
  | ioError
  | formatError
  | namingConflict
  | typeMismatch
  | rangeError
deriving DecidableEq, Repr

/-- Modelled from the spec: the declared element types of a property
(boolean, integers, float32/float64, 3-float vector, string; int8 is the
element type of the visibility property). -/
inductive ElemType where
  | boolT
  | int8T
  | intT
  | floatT
  | doubleT
  | stringT
  | vec3fT
deriving DecidableEq, Repr

/-- Modelled from the spec: one element value of a sample payload.
Floating-point components are embedded as exact rationals. -/
inductive Value where
  | boolV (b : Bool)
  | int8V (i : Int)
  | intV (i : Int)
  | floatV (q : ℚ)
  | doubleV (q : ℚ)
  | stringV (s : String)
  | vec3fV (x y z : ℚ)
deriving DecidableEq, Repr

/-- The declared element type of a value. -/
def Value.typeOf : Value → ElemType
  | .boolV _ => .boolT
  | .int8V _ => .int8T
  | .intV _ => .intT
  | .floatV _ => .floatT
  | .doubleV _ => .doubleT
  | .stringV _ => .stringT
  | .vec3fV _ _ _ => .vec3fT

/-- Modelled from the spec: one sample's encoded payload — a scalar
holds exactly one element, an array a variable-length homogeneous
sequence.  Payload equality models byte-identical encodings (the codec
is injective by the round-trip contract). -/
inductive Payload where
  | scalar (v : Value)
  | array (vs : List Value)
deriving DecidableEq, Repr

/-- Type validation of a payload against a property's declared element
type and arity, as performed by `addSample` before any write. -/
def Payload.matchesType (et : ElemType) (isArr : Bool) : Payload → Bool
  | .scalar v => !isArr && (v.typeOf == et)
  | .array vs => isArr && vs.all (fun v => v.typeOf == et)

/-- Modelled from the spec: a time-sampling definition — uniform
(start + i·step), cyclic (per-cycle offsets plus a cycle duration), or
acyclic (explicit list of times, one per sample). -/
inductive TimeSampling where
  | uniform (step start : ℚ)
  | cyclic (timePerCycle : ℚ) (offsets : List ℚ)
  | acyclic (times : List ℚ)
deriving DecidableEq, Repr

/-- Modelled from the spec: the implicit identity/static time sampling
that pre-exists at table index 0. -/
def identitySampling : TimeSampling := .uniform 1 0

def TimeSampling.isUniform : TimeSampling → Bool
  | .uniform _ _ => true
  | _ => false

def TimeSampling.isCyclic : TimeSampling → Bool
  | .cyclic _ _ => true
  | _ => false

def TimeSampling.isAcyclic : TimeSampling → Bool
  | .acyclic _ => true
  | _ => false

/-- Modelled from the spec: the count of explicitly stored times — the
acyclic table length; uniform stores a single time, cyclic one per
per-cycle offset. -/
def TimeSampling.getNumStoredTimes : TimeSampling → Nat
  | .uniform _ _ => 1
  | .cyclic _ offsets => offsets.length
  | .acyclic times => times.length

/-- Modelled from the spec: the time of sample ordinal `i` — uniform:
start + i·step; cyclic: (i / N)·cycleDuration + offsets[i % N]; acyclic:
the stored time (clamped at the boundary). -/
def TimeSampling.timeOf : TimeSampling → Nat → ℚ
  | .uniform step start, i => start + i * step
  | .cyclic tpc offsets, i =>
      ((i / offsets.length : Nat) : ℚ) * tpc + offsets.getD (i % offsets.length) 0
  | .acyclic times, i => times.getD i (times.getLastD 0)

/-- Absolute distance between two rational times, kept as an explicit
branch so that concrete queries evaluate by kernel reduction. -/
def timeDist (a b : ℚ) : ℚ := if a ≤ b then b - a else a - b

/-- Linear scan for the stored time nearest to the query, keeping the
earlier ordinal on ties (a candidate replaces the incumbent only when
strictly closer). -/
def nearestScan (q : ℚ) : List ℚ → Nat → Nat → ℚ → Nat
  | [], _, best, _ => best
  | t :: ts, i, best, bestD =>
      if timeDist t q < bestD then nearestScan q ts (i + 1) i (timeDist t q)
      else nearestScan q ts (i + 1) best bestD

/-- Modelled from the spec: `nearestSampleIndex` for an acyclic
sampling — nearest-time matching over the stored times with ties broken
toward the lower index; `none` when no time is stored. -/
def nearestSampleIndexAcyclic (times : List ℚ) (q : ℚ) : Option Nat :=
  match times with
  | [] => none
  | t :: ts => some (nearestScan q ts 1 0 (timeDist t q))

/-- Modelled from the spec: one leaf property — declared element type
and arity, a time-sampling index, and the ordered list of sample
references (chunk handles into the archive's container), one per
`addSample` call. -/
structure PropState where
  name : String
  elemType : ElemType
  isArr : Bool
  tsIndex : Nat
  sampleRefs : List Nat
deriving DecidableEq, Repr

/-- A freshly created property with no samples yet. -/
def freshProp (name : String) (et : ElemType) (isArr : Bool) (tsIndex : Nat) : PropState :=
  ⟨name, et, isArr, tsIndex, []⟩

/-- Modelled from the spec: the count of `addSample` calls, not the
count of physical chunks. -/
def numSamples (p : PropState) : Nat := p.sampleRefs.length

/-- Modelled from the spec: `addSample` — validates the payload against
the declared type, then, when dedup is on and the property's immediately
preceding physical chunk has identical content, records a reference to
that chunk; otherwise allocates a new chunk at the end of the container.
Returns the grown container together with the updated property. -/
def addSample (dedup : Bool) (cont : List Payload) (p : PropState) (v : Payload) :
    Except AbcError (List Payload × PropState) :=
  if v.matchesType p.elemType p.isArr then
    match p.sampleRefs.getLast? with
    | some r =>
        if dedup ∧ cont[r]? = some v then
          .ok (cont, { p with sampleRefs := p.sampleRefs ++ [r] })
        else
          .ok (cont ++ [v], { p with sampleRefs := p.sampleRefs ++ [cont.length] })
    | none => .ok (cont ++ [v], { p with sampleRefs := p.sampleRefs ++ [cont.length] })
  else
    .error .typeMismatch

/-- Appending a whole list of samples in order, threading the shared
container through the calls. -/
def addSamples (dedup : Bool) (cont : List Payload) (p : PropState) :
    List Payload → Except AbcError (List Payload × PropState)
  | [] => .ok (cont, p)
  | v :: vs =>
      match addSample dedup cont p v with
      | .ok (c2, p2) => addSamples dedup c2 p2 vs
      | .error e => .error e

/-- Modelled from the spec: `getSample` — resolves the logical sample
ordinal to its physical chunk and decodes it (the codec being modelled
as the identity on typed payloads). -/
def getSample (cont : List Payload) (p : PropState) (k : Nat) : Option Payload :=
  match p.sampleRefs[k]? with
  | some r => cont[r]?
  | none => none

/-- The readback invariant: the property's sample references, resolved
against container `cont`, decode exactly the list `ps` of logically
written payloads, ordinal by ordinal. -/
def Resolves (cont : List Payload) (p : PropState) (ps : List Payload) : Prop :=
  p.sampleRefs.length = ps.length ∧ ∀ k, getSample cont p k = ps[k]?

/-- Modelled from the spec: the visibility sentinels exposed by the
public API as fixed int8 values, pinned by the repository's test
`TestVisibility.test_visibility_constants`. -/
def ObjectVisibility.deferred : Int := -1

/-- Modelled from the spec: the hidden visibility sentinel. -/
def ObjectVisibility.hidden : Int := 0

/-- Modelled from the spec: the visible visibility sentinel. -/
def ObjectVisibility.visible : Int := 1

/-- Modelled from the spec: an object — a named node owning named leaf
properties, an optional first-class int8 visibility property, and an
ordered list of uniquely named children. -/
inductive Obj where
  | node (name : String) (props : List (String × PropState))
      (visibility : Option PropState) (children : List Obj)

def Obj.name : Obj → String
  | .node n _ _ _ => n

def Obj.props : Obj → List (String × PropState)
  | .node _ ps _ _ => ps

def Obj.visibility : Obj → Option PropState
  | .node _ _ vis _ => vis

def Obj.children : Obj → List Obj
  | .node _ _ _ cs => cs

def Obj.numChildren (o : Obj) : Nat := o.children.length

/-- Indexed child access. -/
def Obj.getChild (o : Obj) (i : Nat) : Option Obj := o.children[i]?

/-- Modelled from the spec: lookup of a direct child by name (children
are uniquely named, insertion order preserved). -/
def Obj.getChildByName (o : Obj) (n : String) : Option Obj :=
  o.children.find? (fun ch => ch.name == n)

def Obj.hasChild (o : Obj) (n : String) : Bool :=
  (o.getChildByName n).isSome

/-- Modelled from the spec: `addChild` appends to the ordered child
list and fails with a naming conflict when the name is already present
among direct siblings. -/
def Obj.addChild (o : Obj) (c : Obj) : Except AbcError Obj :=
  if o.children.any (fun ch => ch.name == c.name) then .error .namingConflict
  else .ok (.node o.name o.props o.visibility (o.children ++ [c]))

/-- Modelled from the spec: visibility readback — the object's
visibility property decoded at the given ordinal; the deferred
(-to-parent) sentinel when no visibility property is present at all. -/
def getVisibility (cont : List Payload) (o : Obj) (k : Nat) : Int :=
  match o.visibility with
  | none => ObjectVisibility.deferred
  | some p =>
      match getSample cont p k with
      | some (.scalar (.int8V i)) => i
      | _ => ObjectVisibility.deferred

def isVisible (cont : List Payload) (o : Obj) (k : Nat) : Bool :=
  getVisibility cont o k == ObjectVisibility.visible

def isHidden (cont : List Payload) (o : Obj) (k : Nat) : Bool :=
  getVisibility cont o k == ObjectVisibility.hidden

/-- The int8 scalar payload written by the `setVisible` helper. -/
def visibleSample : Payload := .scalar (.int8V ObjectVisibility.visible)

/-- The int8 scalar payload written by the `setHidden` helper. -/
def hiddenSample : Payload := .scalar (.int8V ObjectVisibility.hidden)

/-- Modelled from the spec: the fresh int8 scalar property created by
`addVisibilityProperty`. -/
def freshVisibilityProp : PropState := freshProp ".visibility" .int8T false 0

/-- Modelled from the spec: the finalized in-archive state — the shared
chunk container, the time-sampling table, and the root object. -/
structure ArchiveData where
  container : List Payload
  tsTable : List TimeSampling
  root : Obj

/-- Modelled from the spec: the on-disk file — its leading bytes (magic
marker then version) and, when the file was produced by a finalize, the
decodable archive body (`none` models a foreign or corrupt body). -/
structure FileData where
  bytes : List Nat
  body : Option ArchiveData

/-- Modelled from the spec: the leading magic marker of a finalized
archive file (the bytes of "Ogawa"). -/
def abcMagic : List Nat := [79, 103, 97, 119, 97]

/-- Modelled from the spec: the format version byte written after the
magic marker. -/
def abcVersion : Nat := 1

/-- Modelled from the spec: `writeArchive` — the single one-shot
serialization of the in-memory state, prefixed by magic and version. -/
def writeArchiveFile (a : ArchiveData) : FileData :=
  ⟨abcMagic ++ [abcVersion], some a⟩

/-- Modelled from the spec: decoding an already-read file — a missing
or wrong magic/version marker (including the zero-byte file) and a
corrupt body signal a format error, distinct from any I/O error. -/
def openFileData (f : FileData) : Except AbcError ArchiveData :=
  if f.bytes.take abcMagic.length = abcMagic then
    if f.bytes.drop abcMagic.length = [abcVersion] then
      match f.body with
      | some a => .ok a
      | none => .error .formatError
    else .error .formatError
  else .error .formatError

/-- Modelled from the spec: opening a path — a missing or unreadable
path fails with an I/O error before any format inspection; otherwise
the file's bytes are decoded. -/
def openArchive (fs : String → Option FileData) (readable : String → Bool)
    (path : String) : Except AbcError ArchiveData :=
  match fs path with
  | none => .error .ioError
  | some f => if readable path then openFileData f else .error .ioError

/-- Modelled from the spec: the write-side archive handle — the path,
the append-only time-sampling table (index 0 pre-exists), the chunk
container, and the dedup flag. -/
structure OArchive where
  path : String
  tsTable : List TimeSampling
  container : List Payload
  dedupEnabled : Bool

/-- Modelled from the spec: `create(path)` opens a new container for
writing; the table starts with only the identity sampling. -/
def OArchive.create (path : String) : OArchive :=
  ⟨path, [identitySampling], [], true⟩

/-- Append one time-sampling definition to the table, returning the
newly assigned index. -/
def addTimeSamplingEntry (t : List TimeSampling) (ts : TimeSampling) :
    List TimeSampling × Nat :=
  (t ++ [ts], t.length)

/-- Modelled from the spec and the Python binding: add a uniform
sampling from a frames-per-second rate (step 1/fps, start 0). -/
def OArchive.addUniformTimeSampling (a : OArchive) (fps : ℚ) : OArchive × Nat :=
  let r := addTimeSamplingEntry a.tsTable (.uniform (1 / fps) 0)
  (⟨a.path, r.1, a.container, a.dedupEnabled⟩, r.2)

/-- Modelled from the spec: add a cyclic sampling (cycle duration plus
per-cycle offsets). -/
def OArchive.addCyclicTimeSampling (a : OArchive) (tpc : ℚ) (offsets : List ℚ) :
    OArchive × Nat :=
  let r := addTimeSamplingEntry a.tsTable (.cyclic tpc offsets)
  (⟨a.path, r.1, a.container, a.dedupEnabled⟩, r.2)

/-- Modelled from the spec: add an acyclic sampling from an explicit
list of times. -/
def OArchive.addAcyclicTimeSampling (a : OArchive) (times : List ℚ) :
    OArchive × Nat :=
  let r := addTimeSamplingEntry a.tsTable (.acyclic times)
  (⟨a.path, r.1, a.container, a.dedupEnabled⟩, r.2)

def OArchive.getNumTimeSamplings (a : OArchive) : Nat := a.tsTable.length

/-- The time-sampling tables reachable through the write API: the table
of a fresh archive, grown only by the three append operations. -/
inductive TableReachable : List TimeSampling → Prop where
  | init : TableReachable [identitySampling]
  | addU {t : List TimeSampling} (fps : ℚ) :
      TableReachable t → TableReachable (t ++ [.uniform (1 / fps) 0])
  | addC {t : List TimeSampling} (tpc : ℚ) (offsets : List ℚ) :
      TableReachable t → TableReachable (t ++ [.cyclic tpc offsets])
  | addA {t : List TimeSampling} (times : List ℚ) :
      TableReachable t → TableReachable (t ++ [.acyclic times])

/-- Modelled from the spec: the read-side view of one object — the node
together with its full path (ancestor names joined by "/"). -/
structure IObject where
  name : String
  fullName : String
  node : Obj

/-- Modelled from the spec: `getTop` — the reader presents the archive
top with full path exactly "/" and the fixed non-empty name "ABC", as
pinned by the repository's tests `TestIObject.test_root_object` and
`TestIArchive.test_get_top` (the writer's root name, possibly empty, is
not echoed back as the top's name). -/
def IArchive.getTop (a : ArchiveData) : IObject :=
  ⟨"ABC", "/", a.root⟩

theorem getSample_eq_bind (cont : List Payload) (p : PropState) (k : Nat) :
    getSample cont p k = (p.sampleRefs[k]?.bind fun r => cont[r]?) := by
  unfold getSample
  cases p.sampleRefs[k]? <;> rfl

theorem resolve_push_ref {cont : List Payload} {refs : List Nat} {ps : List Payload}
    (hlen : refs.length = ps.length)
    (hget : ∀ k : Nat, (refs[k]?.bind fun r : Nat => cont[r]?) = ps[k]?)
    {r : Nat} {v : Payload} (hr : cont[r]? = some v) :
    ∀ k : Nat, ((refs ++ [r])[k]?.bind fun s : Nat => cont[s]?) = (ps ++ [v])[k]? := by
  intro k
  rcases lt_trichotomy k refs.length with hk | hk | hk
  · rw [List.getElem?_append_left hk, List.getElem?_append_left (hlen ▸ hk)]
    exact hget k
  · subst hk
    rw [List.getElem?_concat_length, hlen, List.getElem?_concat_length]
    simpa using hr
  · rw [List.getElem?_eq_none (by simp; omega), List.getElem?_eq_none (by simp; omega)]
    rfl

theorem resolve_grow_container {cont : List Payload} {refs : List Nat} {ps : List Payload}
    (hlen : refs.length = ps.length)
    (hget : ∀ k : Nat, (refs[k]?.bind fun r : Nat => cont[r]?) = ps[k]?) (ext : List Payload) :
    ∀ k : Nat, (refs[k]?.bind fun r : Nat => (cont ++ ext)[r]?) = ps[k]? := by
  intro k
  cases hk : refs[k]? with
  | none =>
      have h0 := hget k
      rw [hk] at h0
      simpa using h0
  | some r =>
      have h0 := hget k
      rw [hk] at h0
      simp only [Option.some_bind] at h0 ⊢
      cases hc : cont[r]? with
      | none =>
          rw [hc] at h0
          have hklt : k < ps.length := hlen ▸ (List.getElem?_eq_some.mp hk).choose
          rw [List.getElem?_eq_some.mpr ⟨hklt, rfl⟩] at h0
          exact absurd h0 (by simp)
      | some w =>
          have hrlt : r < cont.length := (List.getElem?_eq_some.mp hc).choose
          rw [List.getElem?_append_left hrlt, hc]
          rw [hc] at h0
          exact h0

theorem addSample_resolves {d : Bool} {cont : List Payload} {p : PropState} {v : Payload}
    (hv : v.matchesType p.elemType p.isArr = true) {ps : List Payload}
    (hres : Resolves cont p ps) :
    ∃ c2 p2, addSample d cont p v = .ok (c2, p2) ∧ Resolves c2 p2 (ps ++ [v]) ∧
      p2.elemType = p.elemType ∧ p2.isArr = p.isArr := by
  obtain ⟨hlen, hget⟩ := hres
  have hget2 : ∀ k : Nat, (p.sampleRefs[k]?.bind fun r : Nat => cont[r]?) = ps[k]? := by
    intro k
    rw [← getSample_eq_bind]
    exact hget k
  unfold addSample
  rw [if_pos hv]
  split
  · rename_i r hl
    by_cases hd : d = true ∧ cont[r]? = some v
    · rw [if_pos hd]
      refine ⟨cont, _, rfl, ⟨by simpa using hlen, ?_⟩, rfl, rfl⟩
      intro k
      rw [getSample_eq_bind]
      exact resolve_push_ref hlen hget2 hd.2 k
    · rw [if_neg hd]
      refine ⟨cont ++ [v], _, rfl, ⟨by simpa using hlen, ?_⟩, rfl, rfl⟩
      intro k
      rw [getSample_eq_bind]
      exact resolve_push_ref hlen (resolve_grow_container hlen hget2 [v])
        (List.getElem?_concat_length cont v) k
  · refine ⟨cont ++ [v], _, rfl, ⟨by simpa using hlen, ?_⟩, rfl, rfl⟩
    intro k
    rw [getSample_eq_bind]
    exact resolve_push_ref hlen (resolve_grow_container hlen hget2 [v])
      (List.getElem?_concat_length cont v) k

theorem addSamples_resolves {d : Bool} :
    ∀ (vs : List Payload) (cont : List Payload) (p : PropState) (ps : List Payload),
      Resolves cont p ps → (∀ v ∈ vs, v.matchesType p.elemType p.isArr = true) →
      ∃ c2 p2, addSamples d cont p vs = .ok (c2, p2) ∧ Resolves c2 p2 (ps ++ vs) ∧
        p2.elemType = p.elemType ∧ p2.isArr = p.isArr
  | [], cont, p, ps, hres, _ => ⟨cont, p, rfl, by simpa using hres, rfl, rfl⟩
  | v :: vs, cont, p, ps, hres, hall => by
      obtain ⟨c2, p2, heq, hres2, het, har⟩ :=
        addSample_resolves (d := d) (hall v (by simp)) hres
      obtain ⟨c3, p3, heq3, hres3, het3, har3⟩ :=
        addSamples_resolves (d := d) vs c2 p2 (ps ++ [v]) hres2
          (fun w hw => by rw [het, har]; exact hall w (by simp [hw]))
      refine ⟨c3, p3, ?_, by simpa using hres3, by rw [het3, het], by rw [har3, har]⟩
      rw [addSamples, heq]
      exact heq3

theorem resolves_fresh (cont : List Payload) (nm : String) (et : ElemType)
    (isArr : Bool) (ti : Nat) : Resolves cont (freshProp nm et isArr ti) [] := by
  constructor
  · rfl
  · intro k
    simp [getSample, freshProp]

theorem openFileData_writeArchiveFile (a : ArchiveData) :
    openFileData (writeArchiveFile a) = .ok a := by
  simp [openFileData, writeArchiveFile, abcMagic, abcVersion]

/-- C1: writing N samples to a scalar or array property via `addSample`,
finalizing the archive via `writeArchive` and reopening it yields
`numSamples() == N`, and for every k < N `getSample(k)` is exactly the
k-th value written, bit-for-bit by the declared element type. -/
theorem roundtrip_samples (d : Bool) (nm : String) (et : ElemType) (isArr : Bool)
    (ti : Nat) (cont : List Payload) (tst : List TimeSampling) (robj : Obj)
    (vs : List Payload) (h : ∀ v ∈ vs, v.matchesType et isArr = true) :
    ∃ c2 p2 b, addSamples d cont (freshProp nm et isArr ti) vs = .ok (c2, p2) ∧
      openFileData (writeArchiveFile ⟨c2, tst, robj⟩) = .ok b ∧
      numSamples p2 = vs.length ∧
      ∀ k v, vs[k]? = some v → getSample b.container p2 k = some v := by
  obtain ⟨c2, p2, heq, hres, -, -⟩ :=
    addSamples_resolves (d := d) vs cont (freshProp nm et isArr ti) []
      (resolves_fresh cont nm et isArr ti) (fun v hv => h v hv)
  refine ⟨c2, p2, ⟨c2, tst, robj⟩, heq, openFileData_writeArchiveFile _, ?_, ?_⟩
  · simpa [numSamples] using hres.1
  · intro k v hkv
    have := hres.2 k
    simp only [List.nil_append] at this
    rw [this, hkv]

/-- C1 witness: a concrete two-sample int round trip. -/
theorem roundtrip_samples_witness :
    (∀ v ∈ [Payload.scalar (.intV 7), Payload.scalar (.intV 9)],
        v.matchesType .intT false = true) ∧
      ∃ c2 p2 b,
        addSamples true [] (freshProp "p" .intT false 0)
            [Payload.scalar (.intV 7), Payload.scalar (.intV 9)] = .ok (c2, p2) ∧
          openFileData (writeArchiveFile ⟨c2, [identitySampling],
            Obj.node "" [] none []⟩) = .ok b ∧
          numSamples p2 = 2 ∧
          ∀ k v, [Payload.scalar (.intV 7), Payload.scalar (.intV 9)][k]? = some v →
            getSample b.container p2 k = some v :=
  ⟨by decide, roundtrip_samples true "p" .intT false 0 [] [identitySampling]
    (Obj.node "" [] none []) [Payload.scalar (.intV 7), Payload.scalar (.intV 9)]
    (by decide)⟩

theorem addSample_fresh (d : Bool) (cont : List Payload) (nm : String)
    (et : ElemType) (isArr : Bool) (ti : Nat) (v : Payload)
    (hv : v.matchesType et isArr = true) :
    addSample d cont (freshProp nm et isArr ti) v =
      .ok (cont ++ [v], ⟨nm, et, isArr, ti, [cont.length]⟩) := by
  simp [addSample, freshProp, hv]

/-- C2: with dedup on, appending the same encoded payload twice in a row
to a fresh property allocates exactly one physical chunk while
`numSamples()` reports 2 (both sample references point at the single
chunk); appending A, B, A with A ≠ B allocates three chunks and never
merges the two non-adjacent A samples (the three references are
pairwise-distinct consecutive handles). -/
theorem dedup_adjacent_only (cont : List Payload) (nm : String) (et : ElemType)
    (isArr : Bool) (ti : Nat) (v A B : Payload)
    (hv : v.matchesType et isArr = true) (hA : A.matchesType et isArr = true)
    (hB : B.matchesType et isArr = true) (hAB : A ≠ B) :
    (addSamples true cont (freshProp nm et isArr ti) [v, v] =
        .ok (cont ++ [v], ⟨nm, et, isArr, ti, [cont.length, cont.length]⟩) ∧
      numSamples ⟨nm, et, isArr, ti, [cont.length, cont.length]⟩ = 2) ∧
    (addSamples true cont (freshProp nm et isArr ti) [A, B, A] =
        .ok (cont ++ [A, B, A],
          ⟨nm, et, isArr, ti, [cont.length, cont.length + 1, cont.length + 2]⟩) ∧
      numSamples ⟨nm, et, isArr, ti,
        [cont.length, cont.length + 1, cont.length + 2]⟩ = 3) := by
  have s1v : addSample true cont (freshProp nm et isArr ti) v =
      .ok (cont ++ [v], ⟨nm, et, isArr, ti, [cont.length]⟩) :=
    addSample_fresh true cont nm et isArr ti v hv
  have s2v : addSample true (cont ++ [v]) ⟨nm, et, isArr, ti, [cont.length]⟩ v =
      .ok (cont ++ [v], ⟨nm, et, isArr, ti, [cont.length, cont.length]⟩) := by
    simp [addSample, hv, List.getElem?_concat_length]
  have s1 : addSample true cont (freshProp nm et isArr ti) A =
      .ok (cont ++ [A], ⟨nm, et, isArr, ti, [cont.length]⟩) :=
    addSample_fresh true cont nm et isArr ti A hA
  have s2 : addSample true (cont ++ [A]) ⟨nm, et, isArr, ti, [cont.length]⟩ B =
      .ok (cont ++ [A, B], ⟨nm, et, isArr, ti, [cont.length, cont.length + 1]⟩) := by
    have hg : (cont ++ [A])[cont.length]? = some A := List.getElem?_concat_length cont A
    simp [addSample, hB, hg, hAB]
  have hg2 : (cont ++ [A, B])[cont.length + 1]? = some B := by
    rw [List.getElem?_append_right (by omega)]
    simp
  have s3 : addSample true (cont ++ [A, B])
        ⟨nm, et, isArr, ti, [cont.length, cont.length + 1]⟩ A =
      .ok (cont ++ [A, B, A],
        ⟨nm, et, isArr, ti, [cont.length, cont.length + 1, cont.length + 2]⟩) := by
    simp [addSample, hA, hg2, Ne.symm hAB]
  constructor
  · refine ⟨?_, rfl⟩
    simp only [addSamples, s1v, s2v]
  · refine ⟨?_, rfl⟩
    simp only [addSamples, s1, s2, s3]

/-- C2 witness: concrete int payloads 5-5 and 1-2-1 over the empty
container. -/
theorem dedup_adjacent_only_witness :
    ((Payload.scalar (.intV 5)).matchesType .intT false = true ∧
      (Payload.scalar (.intV 1)).matchesType .intT false = true ∧
      (Payload.scalar (.intV 2)).matchesType .intT false = true ∧
      Payload.scalar (.intV 1) ≠ Payload.scalar (.intV 2)) ∧
    (addSamples true [] (freshProp "p" .intT false 0)
        [Payload.scalar (.intV 5), Payload.scalar (.intV 5)] =
      .ok ([Payload.scalar (.intV 5)], ⟨"p", .intT, false, 0, [0, 0]⟩)) ∧
    (addSamples true [] (freshProp "p" .intT false 0)
        [Payload.scalar (.intV 1), Payload.scalar (.intV 2), Payload.scalar (.intV 1)] =
      .ok ([Payload.scalar (.intV 1), Payload.scalar (.intV 2), Payload.scalar (.intV 1)],
        ⟨"p", .intT, false, 0, [0, 1, 2]⟩)) := by
  refine ⟨by decide, ?_, ?_⟩
  · have h := dedup_adjacent_only [] "p" .intT false 0
      (Payload.scalar (.intV 5)) (Payload.scalar (.intV 1)) (Payload.scalar (.intV 2))
      (by decide) (by decide) (by decide) (by decide)
    simpa using h.1.1
  · have h := dedup_adjacent_only [] "p" .intT false 0
      (Payload.scalar (.intV 5)) (Payload.scalar (.intV 1)) (Payload.scalar (.intV 2))
      (by decide) (by decide) (by decide) (by decide)
    simpa using h.2.1

/-- C3: opening a nonexistent or unreadable path fails with an I/O
error and never a format error; opening a zero-byte file, a file with a
wrong leading magic marker, or a file with the right magic but an
unsupported version byte fails with a format error; the two error kinds
are distinguishable, never a generic undifferentiated failure. -/
theorem open_error_kinds (fs : String → Option FileData) (readable : String → Bool)
    (path : String) :
    (fs path = none → openArchive fs readable path = .error .ioError) ∧
    (readable path = false → openArchive fs readable path = .error .ioError) ∧
    (∀ f, fs path = some f → readable path = true → f.bytes = [] →
      openArchive fs readable path = .error .formatError) ∧
    (∀ f, fs path = some f → readable path = true →
      f.bytes.take abcMagic.length ≠ abcMagic →
      openArchive fs readable path = .error .formatError) ∧
    (∀ f, fs path = some f → readable path = true →
      f.bytes.take abcMagic.length = abcMagic →
      f.bytes.drop abcMagic.length ≠ [abcVersion] →
      openArchive fs readable path = .error .formatError) ∧
    AbcError.ioError ≠ AbcError.formatError := by
  refine ⟨?_, ?_, ?_, ?_, ?_, by decide⟩
  · intro h
    simp [openArchive, h]
  · intro h
    cases hf : fs path with
    | none => simp [openArchive, hf]
    | some f => simp [openArchive, hf, h]
  · intro f hf hr hb
    simp [openArchive, hf, hr, openFileData, hb, abcMagic]
  · intro f hf hr hm
    simp [openArchive, hf, hr, openFileData, hm]
  · intro f hf hr hm hv
    simp [openArchive, hf, hr, openFileData, hm, hv]

/-- C3 witness: a missing path gives an I/O error; a zero-byte file and
a file with the right magic but a wrong version byte each give a format
error. -/
theorem open_error_kinds_witness :
    openArchive (fun _ => none) (fun _ => true) "missing.abc" = .error .ioError ∧
    openArchive (fun _ => some ⟨[], none⟩) (fun _ => true) "empty.abc" =
      .error .formatError ∧
    openArchive (fun _ => some ⟨abcMagic ++ [2], none⟩) (fun _ => true)
      "badversion.abc" = .error .formatError := by
  refine ⟨?_, ?_, ?_⟩
  · exact (open_error_kinds (fun _ => none) (fun _ => true) "missing.abc").1 rfl
  · exact (open_error_kinds (fun _ => some ⟨[], none⟩) (fun _ => true)
      "empty.abc").2.2.1 ⟨[], none⟩ rfl rfl rfl
  · exact (open_error_kinds (fun _ => some ⟨abcMagic ++ [2], none⟩) (fun _ => true)
      "badversion.abc").2.2.2.2.1 ⟨abcMagic ++ [2], none⟩ rfl rfl (by decide) (by decide)

theorem tableReachable_inv {t : List TimeSampling} (h : TableReachable t) :
    1 ≤ t.length ∧ t[0]? = some identitySampling := by
  induction h with
  | init => exact ⟨by simp, rfl⟩
  | addU fps _ ih =>
      obtain ⟨h1, h2⟩ := ih
      refine ⟨by simp, ?_⟩
      rw [List.getElem?_append_left (by omega)]
      exact h2
  | addC tpc offsets _ ih =>
      obtain ⟨h1, h2⟩ := ih
      refine ⟨by simp, ?_⟩
      rw [List.getElem?_append_left (by omega)]
      exact h2
  | addA times _ ih =>
      obtain ⟨h1, h2⟩ := ih
      refine ⟨by simp, ?_⟩
      rw [List.getElem?_append_left (by omega)]
      exact h2

/-- C4: time-sampling index 0 always pre-exists as the implicit
identity/static sampling; each user addition appends and returns the
next index, which is at least 1 (the first user-added sampling on a
fresh archive gets index 1); existing entries are never removed or
reordered by an addition, so `getNumTimeSamplings() ≥ 1` and stored
indices stay valid for the archive's lifetime. -/
theorem timeSampling_table_invariants (a : OArchive) (h : TableReachable a.tsTable) :
    1 ≤ a.getNumTimeSamplings ∧
    a.tsTable[0]? = some identitySampling ∧
    (∀ fps : ℚ, (a.addUniformTimeSampling fps).2 = a.tsTable.length ∧
      1 ≤ (a.addUniformTimeSampling fps).2) ∧
    (∀ (tpc : ℚ) (offsets : List ℚ),
      (a.addCyclicTimeSampling tpc offsets).2 = a.tsTable.length ∧
      1 ≤ (a.addCyclicTimeSampling tpc offsets).2) ∧
    (∀ times : List ℚ, (a.addAcyclicTimeSampling times).2 = a.tsTable.length ∧
      1 ≤ (a.addAcyclicTimeSampling times).2) ∧
    (∀ (fps : ℚ) (i : Nat), i < a.tsTable.length →
      ((a.addUniformTimeSampling fps).1).tsTable[i]? = a.tsTable[i]?) ∧
    (∀ (tpc : ℚ) (offsets : List ℚ) (i : Nat), i < a.tsTable.length →
      ((a.addCyclicTimeSampling tpc offsets).1).tsTable[i]? = a.tsTable[i]?) ∧
    (∀ (times : List ℚ) (i : Nat), i < a.tsTable.length →
      ((a.addAcyclicTimeSampling times).1).tsTable[i]? = a.tsTable[i]?) ∧
    (∀ (p : String) (fps : ℚ), ((OArchive.create p).addUniformTimeSampling fps).2 = 1) := by
  obtain ⟨h1, h2⟩ := tableReachable_inv h
  refine ⟨h1, h2, fun fps => ⟨rfl, h1⟩, fun tpc offsets => ⟨rfl, h1⟩,
    fun times => ⟨rfl, h1⟩, ?_, ?_, ?_, fun p fps => rfl⟩
  · intro fps i hi
    exact List.getElem?_append_left hi
  · intro tpc offsets i hi
    exact List.getElem?_append_left hi
  · intro times i hi
    exact List.getElem?_append_left hi

/-- C4 witness: the fresh archive's table, with the first user-added
uniform sampling getting index 1. -/
theorem timeSampling_table_invariants_witness :
    1 ≤ (OArchive.create "t.abc").getNumTimeSamplings ∧
    ((OArchive.create "t.abc").addUniformTimeSampling 24).2 = 1 := by
  have h := timeSampling_table_invariants (OArchive.create "t.abc") TableReachable.init
  exact ⟨h.1, (h.2.2.1 24).1⟩

/-- C5: the acyclic sampling over times [0, 1/2, 1, 2, 5] stores 5
times; `nearestSampleIndex` at query time 1.9 returns ordinal 3 (the
sample at time 2); at the exact midpoint 1/4 of the first two stored
times the tie goes to the lower index 0. -/
theorem acyclic_nearest_sample :
    TimeSampling.getNumStoredTimes (.acyclic [0, 1/2, 1, 2, 5]) = 5 ∧
    nearestSampleIndexAcyclic [0, 1/2, 1, 2, 5] (19/10) = some 3 ∧
    nearestSampleIndexAcyclic [0, 1/2, 1, 2, 5] (1/4) = some 0 := by
  refine ⟨by decide, ?_, ?_⟩ <;>
    norm_num [nearestSampleIndexAcyclic, nearestScan, timeDist]

/-- C6: sample i of a uniform sampling occurs exactly at
start + i·step; with step 1/24 and start 0, `timeOf` is exactly 0 at
ordinal 0 and exactly 23/24 at ordinal 23. -/
theorem uniform_time_of :
    (∀ (step start : ℚ) (i : Nat),
      TimeSampling.timeOf (.uniform step start) i = start + i * step) ∧
    TimeSampling.timeOf (.uniform (1 / 24) 0) 0 = 0 ∧
    TimeSampling.timeOf (.uniform (1 / 24) 0) 23 = 23 / 24 := by
  refine ⟨fun _ _ _ => rfl, by norm_num [TimeSampling.timeOf],
    by norm_num [TimeSampling.timeOf]⟩

/-- C7: writing the visibility samples [visible, hidden], finalizing
and reopening yields `isVisible(0) == true` and `isHidden(1) == true`
for that object, and every object that never had a visibility property
set reports the deferred(-to-parent) state. -/
theorem visibility_roundtrip (cont : List Payload) (nm : String)
    (tst : List TimeSampling) :
    ∃ c2 p2 b,
      addSamples true cont freshVisibilityProp [visibleSample, hiddenSample] =
          .ok (c2, p2) ∧
      openFileData (writeArchiveFile ⟨c2, tst,
        Obj.node "" [] none [Obj.node nm [] (some p2) []]⟩) = .ok b ∧
      (∃ o, b.root.getChildByName nm = some o ∧
        isVisible b.container o 0 = true ∧ isHidden b.container o 1 = true) ∧
      (∀ (o : Obj) (k : Nat), o.visibility = none →
        getVisibility b.container o k = ObjectVisibility.deferred) := by
  have hvm : visibleSample.matchesType .int8T false = true := by decide
  have hhm : hiddenSample.matchesType .int8T false = true := by decide
  have hne : visibleSample ≠ hiddenSample := by decide
  have s1 : addSample true cont (freshProp ".visibility" .int8T false 0) visibleSample =
      .ok (cont ++ [visibleSample], ⟨".visibility", .int8T, false, 0, [cont.length]⟩) :=
    addSample_fresh true cont ".visibility" .int8T false 0 visibleSample hvm
  have hg1 : (cont ++ [visibleSample])[cont.length]? = some visibleSample :=
    List.getElem?_concat_length cont visibleSample
  have s2 : addSample true (cont ++ [visibleSample])
        ⟨".visibility", .int8T, false, 0, [cont.length]⟩ hiddenSample =
      .ok (cont ++ [visibleSample, hiddenSample],
        ⟨".visibility", .int8T, false, 0, [cont.length, cont.length + 1]⟩) := by
    simp [addSample, hhm, hg1, hne]
  refine ⟨cont ++ [visibleSample, hiddenSample],
    ⟨".visibility", .int8T, false, 0, [cont.length, cont.length + 1]⟩,
    ⟨cont ++ [visibleSample, hiddenSample], tst,
      Obj.node "" [] none [Obj.node nm []
        (some ⟨".visibility", .int8T, false, 0, [cont.length, cont.length + 1]⟩) []]⟩,
    ?_, openFileData_writeArchiveFile _, ⟨Obj.node nm []
      (some ⟨".visibility", .int8T, false, 0, [cont.length, cont.length + 1]⟩) [],
      ?_, ?_, ?_⟩, ?_⟩
  · show addSamples true cont (freshProp ".visibility" .int8T false 0) _ = _
    simp only [addSamples, s1, s2]
  · simp [Obj.getChildByName, Obj.children, Obj.name, List.find?]
  · have hv0 : (cont ++ [visibleSample, hiddenSample])[cont.length]? =
        some visibleSample := by
      rw [List.getElem?_append_right (by omega)]
      simp
    have hgs : getSample (cont ++ [visibleSample, hiddenSample])
        ⟨".visibility", .int8T, false, 0, [cont.length, cont.length + 1]⟩ 0 =
        some (Payload.scalar (Value.int8V 1)) := by
      rw [getSample_eq_bind]
      simp only [List.getElem?_cons_zero, Option.some_bind]
      exact hv0
    simp [isVisible, getVisibility, Obj.visibility, hgs, ObjectVisibility.visible]
  · have hv1 : (cont ++ [visibleSample, hiddenSample])[cont.length + 1]? =
        some hiddenSample := by
      rw [List.getElem?_append_right (by omega)]
      simp
    have hgs : getSample (cont ++ [visibleSample, hiddenSample])
        ⟨".visibility", .int8T, false, 0, [cont.length, cont.length + 1]⟩ 1 =
        some (Payload.scalar (Value.int8V 0)) := by
      rw [getSample_eq_bind]
      simp only [List.getElem?_cons_succ, List.getElem?_cons_zero, Option.some_bind]
      exact hv1
    simp [isHidden, getVisibility, Obj.visibility, hgs, ObjectVisibility.hidden]
  · intro o k h
    simp [getVisibility, h]

/-- C7 witness: the concrete round trip from the empty container with
object name "test_vis". -/
theorem visibility_roundtrip_witness :
    ∃ c2 p2 b,
      addSamples true [] freshVisibilityProp [visibleSample, hiddenSample] =
          .ok (c2, p2) ∧
      openFileData (writeArchiveFile ⟨c2, [identitySampling],
        Obj.node "" [] none [Obj.node "test_vis" [] (some p2) []]⟩) = .ok b ∧
      (∃ o, b.root.getChildByName "test_vis" = some o ∧
        isVisible b.container o 0 = true ∧ isHidden b.container o 1 = true) ∧
      (∀ (o : Obj) (k : Nat), o.visibility = none →
        getVisibility b.container o k = ObjectVisibility.deferred) :=
  visibility_roundtrip [] "test_vis" [identitySampling]

theorem find_child_by_name {l : List Obj} (h : (l.map Obj.name).Nodup) :
    ∀ {i : Nat} {c : Obj}, l[i]? = some c →
      l.find? (fun ch => ch.name == c.name) = some c := by
  induction l with
  | nil =>
      intro i c hc
      simp at hc
  | cons x xs ih =>
      intro i c hc
      simp only [List.map_cons, List.nodup_cons] at h
      obtain ⟨hx, hxs⟩ := h
      cases i with
      | zero =>
          simp only [List.getElem?_cons_zero, Option.some.injEq] at hc
          subst hc
          simp [List.find?]
      | succ n =>
          rw [List.getElem?_cons_succ] at hc
          have hmem : c ∈ xs := List.getElem?_mem hc
          have hne : (x.name == c.name) = false := by
            rw [beq_eq_false_iff_ne]
            intro he
            exact hx (he ▸ List.mem_map_of_mem Obj.name hmem)
          rw [List.find?_cons_of_neg _ (by simp [hne])]
          exact ih hxs hc

/-- C8: for every object O whose direct children carry pairwise
distinct names (the data-model invariant `addChild` enforces), looking
up by the i-th child's name returns that same child:
`O.getChildByName(O.getChild(i).getName()) == O.getChild(i)`. -/
theorem child_by_name_roundtrip (o : Obj) (h : (o.children.map Obj.name).Nodup)
    (i : Nat) (c : Obj) (hc : o.getChild i = some c) :
    o.getChildByName c.name = some c :=
  find_child_by_name h hc

/-- C8 witness: a concrete parent with two distinct children, taking
the child at index 1. -/
theorem child_by_name_roundtrip_witness :
    (((Obj.node "r" [] none [Obj.node "a" [] none [],
        Obj.node "b" [] none []]).children.map Obj.name).Nodup ∧
      (Obj.node "r" [] none [Obj.node "a" [] none [],
        Obj.node "b" [] none []]).getChild 1 = some (Obj.node "b" [] none [])) ∧
    (Obj.node "r" [] none [Obj.node "a" [] none [],
      Obj.node "b" [] none []]).getChildByName (Obj.node "b" [] none []).name =
        some (Obj.node "b" [] none []) :=
  ⟨⟨by decide, rfl⟩,
    child_by_name_roundtrip
      (Obj.node "r" [] none [Obj.node "a" [] none [], Obj.node "b" [] none []])
      (by decide) 1 (Obj.node "b" [] none []) rfl⟩

/-- C9: the visibility sentinels exposed by the public API are the
fixed integers deferred = -1, hidden = 0, visible = 1. -/
theorem visibility_constants :
    ObjectVisibility.deferred = -1 ∧ ObjectVisibility.hidden = 0 ∧
      ObjectVisibility.visible = 1 :=
  ⟨rfl, rfl, rfl⟩

/-- C10: for every archive opened for reading, the top object reports
full name exactly "/" but name "ABC" — a fixed non-empty name rather
than the (possibly empty) name the writer gave the root object. -/
theorem top_object_name (a : ArchiveData) :
    (IArchive.getTop a).fullName = "/" ∧ (IArchive.getTop a).name = "ABC" ∧
      (IArchive.getTop a).name ≠ "" := by
  refine ⟨rfl, rfl, ?_⟩
  show "ABC" ≠ ""
  decide

end AlembicRS
